import Mathlib

/-!
A shallow embedding of the state-comparison core of `gh-project-report`
(packages `pkg/types` and `pkg/format`) together with proofs about it.

Embedding conventions, chosen once for the whole development:

* Every `time.Time` stored in a `DateSpan` is a midnight-UTC instant produced
  by parsing a `YYYY-MM-DD` string with `time.Parse("2006-01-02", ...)`.  We
  represent such an instant by the integer number of hours since the civil
  epoch (`24 *` the civil day number).  `t1.Sub(t2).Hours()/24` followed by
  Go's `int(...)` truncation is then `Int.tdiv (t1 - t2) 24` (exact here: for
  whole-day differences the float arithmetic in `Duration.Hours` is exact,
  since the fractional nanosecond part is zero and `days*24` fits a float64
  mantissa).
* Go's `int` division and remainder truncate toward zero, which is
  `Int.tdiv` / `Int.tmod`; Lean's `/` on `Int` is Euclidean division and is
  used only in the definitions that formalise the specification's wording.
* A Go `map[string]T` is represented by its association list in insertion
  order, built with last-write-wins insertion (`mapInsert`); `range`
  iteration is modelled as iteration over that list.  Go's map iteration
  order is unspecified, so every theorem below about map-driven results is
  phrased up to ordering (membership or permutation statements).
* `interface{}` attribute values are represented by the tagged union
  `AttrVal` covering the value shapes the program stores (strings, integer
  numbers, booleans); Go's `==` on these is `AttrVal` equality and
  `fmt.Sprintf("%v", v)` is `AttrVal.goString`.
* `time.Now()` is an input: functions that read the clock take an explicit
  `now` argument.
* Functions returning `(T, error)` become `Except` values; the error
  payloads keep only the information the comparison logic inspects.
-/

/-! ### Byte-wise string comparison (Go's `<` on `string`) -/

/-- Lexicographic strict comparison of character lists by code point.  Go
compares strings byte-wise over UTF-8; byte-wise UTF-8 order coincides with
code-point order, so this is Go's `s < t`. -/
def strLtList : List Char → List Char → Bool
  | [], [] => false
  | [], _ :: _ => true
  | _ :: _, [] => false
  | a :: as, b :: bs =>
    if a.toNat < b.toNat then true
    else if b.toNat < a.toNat then false
    else strLtList as bs

/-- Go's `a < b` on strings. -/
def strLt (a b : String) : Bool := strLtList a.data b.data

/-! ### Attribute values (`interface{}`) -/

/-- Dynamically-typed attribute value (`interface{}` in the source). -/
inductive AttrVal where
  | vStr (s : String)
  | vInt (n : Int)
  | vBool (b : Bool)
deriving DecidableEq

/-- `fmt.Sprintf("%v", v)` for the value shapes of `AttrVal`. -/
def AttrVal.goString : AttrVal → String
  | .vStr s => s
  | .vInt n => toString n
  | .vBool b => if b then "true" else "false"

/-! ### DateSpan (`pkg/types/datespan.go`) -/

/-- `DateSpan` from `pkg/types/datespan.go`: a start and end instant (hours
since epoch, see the conventions above). -/
structure DateSpan where
  Start : Int
  End : Int
deriving DecidableEq

/-- `DateSpan.DurationDays`: `int(ds.End.Sub(ds.Start).Hours()/24) + 1`. -/
def DateSpan.DurationDays (ds : DateSpan) : Int :=
  Int.tdiv (ds.End - ds.Start) 24 + 1

/-- `DateSpanChange` from `pkg/types/datespan.go`. -/
structure DateSpanChange where
  StartDaysDelta : Int
  EndDaysDelta : Int
  DurationDelta : Int
deriving DecidableEq

/-- `DateSpan.CompareTo` from `pkg/types/datespan.go`. -/
def DateSpan.CompareTo (ds other : DateSpan) : DateSpanChange :=
  { StartDaysDelta := Int.tdiv (other.Start - ds.Start) 24
    EndDaysDelta := Int.tdiv (other.End - ds.End) 24
    DurationDelta := other.DurationDays - ds.DurationDays }

/-- `DateSpan.Equal`: `ds.Start.Equal(other.Start) && ds.End.Equal(other.End)`
(`time.Time.Equal` on instants is instant equality). -/
def DateSpan.Equal (ds other : DateSpan) : Bool :=
  ds.Start == other.Start && ds.End == other.End

/-! ### Calendar-date parsing (`time.Parse("2006-01-02", s)`) -/

/-- Decimal digit test. -/
def isDigitChar (c : Char) : Bool :=
  '0'.toNat ≤ c.toNat && c.toNat ≤ '9'.toNat

/-- Numeric value of a digit character. -/
def digitVal (c : Char) : Nat := c.toNat - '0'.toNat

/-- Gregorian leap-year rule (as in Go's `time` package). -/
def isLeapYear (y : Nat) : Bool :=
  (y % 4 == 0 && y % 100 != 0) || y % 400 == 0

/-- Number of days in a month (as in Go's `time` package). -/
def daysInMonth (y m : Nat) : Nat :=
  if m = 2 then (if isLeapYear y then 29 else 28)
  else if m = 4 ∨ m = 6 ∨ m = 9 ∨ m = 11 then 30
  else 31

/-- A parsed calendar date. -/
structure CivilDate where
  year : Nat
  month : Nat
  day : Nat
deriving DecidableEq

/-- `time.Parse("2006-01-02", s)`: exactly `dddd-dd-dd` with all-digit
fields, month in `1..12` and day in `1..daysInMonth` (Go reports "month out
of range" / "day out of range" otherwise); any other shape is a parse
error. -/
def parseDate (s : String) : Option CivilDate :=
  match s.data with
  | [y1, y2, y3, y4, s1, m1, m2, s2, d1, d2] =>
    if (s1 == '-' && s2 == '-' &&
        isDigitChar y1 && isDigitChar y2 && isDigitChar y3 && isDigitChar y4 &&
        isDigitChar m1 && isDigitChar m2 && isDigitChar d1 && isDigitChar d2) then
      let y := 1000 * digitVal y1 + 100 * digitVal y2 + 10 * digitVal y3 + digitVal y4
      let m := 10 * digitVal m1 + digitVal m2
      let d := 10 * digitVal d1 + digitVal d2
      if 1 ≤ m ∧ m ≤ 12 ∧ 1 ≤ d ∧ d ≤ daysInMonth y m then some ⟨y, m, d⟩
      else none
    else none
  | _ => none

/-- Civil day number of a calendar date (days since 1970-01-01, the standard
days-from-civil computation used by `time.Date`'s normalisation). -/
def CivilDate.toDays (dt : CivilDate) : Int :=
  let y : Int := if dt.month ≤ 2 then (dt.year : Int) - 1 else (dt.year : Int)
  let era : Int := (if 0 ≤ y then y else y - 399) / 400
  let yoe : Int := y - era * 400
  let mp : Int := ((dt.month : Int) + 9) % 12
  let doy : Int := (153 * mp + 2) / 5 + (dt.day : Int) - 1
  let doe : Int := yoe * 365 + yoe / 4 - yoe / 100 + doy
  era * 146097 + doe - 719468

/-- The midnight-UTC instant of a calendar date, in hours since epoch. -/
def CivilDate.toTime (dt : CivilDate) : Int := 24 * dt.toDays

/-- The two failure modes of `NewDateSpan` (`fmt.Errorf` payloads:
`invalid start date` / `invalid end date` wrap a parse failure, and the
"end date ... is before start date" message is the ordering failure). -/
inductive DateError where
  | parseErr
  | orderErr
deriving DecidableEq

/-- `NewDateSpan` from `pkg/types/datespan.go`: parse the start string, then
the end string, then reject `endTime.Before(startTime)`. -/
def NewDateSpan (start endStr : String) : Except DateError DateSpan :=
  match parseDate start with
  | none => .error .parseErr
  | some sd =>
    match parseDate endStr with
    | none => .error .parseErr
    | some ed =>
      if ed.toTime < sd.toTime then .error .orderErr
      else .ok { Start := sd.toTime, End := ed.toTime }

/-! ### Item and ItemDiff (`pkg/types`, item file) -/

/-- `Item` from the item file of `pkg/types`.  The `Attributes` map is its
association list in insertion order. -/
structure Item where
  ID : String
  DateSpan : DateSpan
  Attributes : List (String × AttrVal)
deriving DecidableEq

/-- Go map lookup `m[k]` on the association-list representation. -/
def lookupAttr (m : List (String × AttrVal)) (k : String) : Option AttrVal :=
  (m.find? (fun p => p.1 == k)).map (fun p => p.2)

/-- `FieldChange` from the item file; `none` is Go's `nil` interface value
("no value"). -/
structure FieldChange where
  Field : String
  OldValue : Option AttrVal
  NewValue : Option AttrVal
deriving DecidableEq

/-- `ItemDiff` from the item file; `Timestamp` records `time.Now()`. -/
structure ItemDiff where
  ItemID : String
  Timestamp : Int
  Before : Item
  After : Item
  DateChange : Option DateSpanChange
  FieldChanges : List FieldChange
deriving DecidableEq

/-- The comparison `sort.Slice(changes, func(i,j) {return changes[i].Field <
changes[j].Field})` sorts by: this non-strict version of Go's `<` on the
`Field` names. -/
def fieldLe (a b : FieldChange) : Prop :=
  strLt a.Field b.Field = true ∨ a.Field = b.Field

instance : DecidableRel fieldLe := fun _ _ =>
  inferInstanceAs (Decidable (_ ∨ _))

/-- First `range` loop of `Item.CompareTo`: for every key of
`other.Attributes`, emit a change when the key is absent from
`i.Attributes` (Go's `oldVal` is then the `nil` interface, our `none`) or
present with a different value.  `oldVal ≠ some newVal` covers exactly Go's
`!exists || oldVal != newVal`. -/
def attrChangesNew (i other : Item) : List FieldChange :=
  other.Attributes.filterMap (fun p =>
    let oldVal := lookupAttr i.Attributes p.1
    if oldVal ≠ some p.2 then some ⟨p.1, oldVal, some p.2⟩ else none)

/-- Second `range` loop of `Item.CompareTo`: deletions — keys of
`i.Attributes` absent from `other.Attributes`. -/
def attrChangesDeleted (i other : Item) : List FieldChange :=
  i.Attributes.filterMap (fun p =>
    if lookupAttr other.Attributes p.1 = none then some ⟨p.1, some p.2, none⟩
    else none)

/-- `Item.CompareTo` from the item file.  `now` is the value `time.Now()`
returns during the call.  The two `range` loops over the attribute maps are
iterated in association-list order; the subsequent sort makes the published
order independent of that choice whenever the field names are distinct. -/
def Item.CompareTo (now : Int) (i other : Item) : ItemDiff :=
  let dateChange : Option DateSpanChange :=
    if i.DateSpan.Equal other.DateSpan then none
    else some (i.DateSpan.CompareTo other.DateSpan)
  { ItemID := i.ID
    Timestamp := now
    Before := i
    After := other
    DateChange := dateChange
    FieldChanges := List.insertionSort fieldLe
      (attrChangesNew i other ++ attrChangesDeleted i other) }

/-- `ItemDiff.HasChanges` from the item file. -/
def ItemDiff.HasChanges (d : ItemDiff) : Bool :=
  d.DateChange.isSome || !d.FieldChanges.isEmpty

/-! ### ProjectState, ProjectDiff and the two diff engines (`pkg/types`) -/

/-- `ProjectState` from `pkg/types/types.go` / `project_state.go`. -/
structure ProjectState where
  Filename : String
  Timestamp : Int
  ProjectNumber : Int
  ProjectID : String
  Organization : String
  Items : List Item
deriving DecidableEq

/-- `ProjectDiff` from `pkg/types/types.go`. -/
structure ProjectDiff where
  AddedItems : List Item
  RemovedItems : List Item
  ChangedItems : List ItemDiff
deriving DecidableEq

/-- Go map assignment `m[k] = v`: overwrite in place or append. -/
def mapInsert (m : List (String × Item)) (k : String) (v : Item) :
    List (String × Item) :=
  match m with
  | [] => [(k, v)]
  | (k1, v1) :: rest =>
    if k1 = k then (k, v) :: rest else (k1, v1) :: mapInsert rest k v

/-- The `oldItems`/`newItems` map-building loops of `CompareProjectStates`. -/
def buildItemMap (items : List Item) : List (String × Item) :=
  items.foldl (fun m it => mapInsert m it.ID it) []

/-- Go map lookup `m[id]` on the item map. -/
def mapLookup (m : List (String × Item)) (k : String) : Option Item :=
  (m.find? (fun p => p.1 == k)).map (fun p => p.2)

/-- The shared changed-items loop body of both diff engines: given the old
item and the result of looking its ID up on the new side, run the item
comparison and keep the diff only when `HasChanges()`. -/
def changedEntry (now : Int) (oldIt : Item) (found : Option Item) :
    Option ItemDiff :=
  match found with
  | some newItem =>
    let d := Item.CompareTo now oldIt newItem
    if d.HasChanges then some d else none
  | none => none

/-- `CompareProjectStates` from `pkg/types/types.go`.  The three `range`
loops over the maps are modelled as passes over the association lists in
insertion order (one admissible iteration order). -/
def CompareProjectStates (now : Int) (oldState newState : ProjectState) :
    ProjectDiff :=
  let oldItems := buildItemMap oldState.Items
  let newItems := buildItemMap newState.Items
  let removed := (oldItems.filter
      (fun p => (mapLookup newItems p.1).isNone)).map (fun p => p.2)
  let added := (newItems.filter
      (fun p => (mapLookup oldItems p.1).isNone)).map (fun p => p.2)
  let changed := oldItems.filterMap
    (fun p => changedEntry now p.2 (mapLookup newItems p.1))
  { AddedItems := added, RemovedItems := removed, ChangedItems := changed }

/-- `ProjectState.CompareTo` from `pkg/types/project_state.go`: the
nested-loop diff.  The single pass over `p.Items` appends to
`RemovedItems`/`ChangedItems`; the two output lists of that pass are the
corresponding filter and filterMap of `p.Items`, and the second pass over
`other.Items` produces `AddedItems`. -/
def ProjectState.CompareTo (now : Int) (p other : ProjectState) : ProjectDiff :=
  let removed := p.Items.filter
    (fun o => (other.Items.find? (fun n => o.ID == n.ID)).isNone)
  let changed := p.Items.filterMap (fun o =>
    changedEntry now o (other.Items.find? (fun n => o.ID == n.ID)))
  let added := other.Items.filter
    (fun n => (p.Items.find? (fun o => n.ID == o.ID)).isNone)
  { AddedItems := added, RemovedItems := removed, ChangedItems := changed }

/-- Split a character list at the first `'='`, as `strings.SplitN(s, "=", 2)`
does: `none` when no `'='` occurs, otherwise the part before the first `'='`
and everything after it. -/
def splitFirstEq : List Char → Option (List Char × List Char)
  | [] => none
  | c :: cs =>
    if c = '=' then some ([], cs)
    else match splitFirstEq cs with
      | some (a, b) => some (c :: a, b)
      | none => none

/-- `ProjectState.FilterState` from `pkg/types/project_state.go`.  The error
payload abbreviates Go's "invalid filter format ... (must be
attribute=value)" message. -/
def ProjectState.FilterState (s : ProjectState) (filter : String) :
    Except String ProjectState :=
  if filter = "" then .ok s
  else
    match splitFirstEq filter.data with
    | none => .error "invalid filter format (must be attribute=value)"
    | some (a, v) =>
      let attrKey := String.mk a
      let value := String.mk v
      .ok { Filename := s.Filename
            Timestamp := s.Timestamp
            ProjectNumber := s.ProjectNumber
            ProjectID := s.ProjectID
            Organization := s.Organization
            Items := s.Items.filter (fun item =>
              match lookupAttr item.Attributes attrKey with
              | some itemValue => itemValue.goString == value
              | none => false) }

/-! ### Delay classification and duration rendering (`pkg/format/markdown.go`) -/

/-- The five delay levels of `pkg/format/types.go` (the Go constants are
labelled strings; only their identity matters here). -/
inductive DelayLevel where
  | onTrack
  | ahead
  | moderate
  | high
  | extreme
deriving DecidableEq

/-- `calculateDelayLevel` from `pkg/format/markdown.go`. -/
def calculateDelayLevel (durationDelta moderateDelay highDelay extremeDelay : Int) :
    DelayLevel :=
  if durationDelta < 0 then .ahead
  else if durationDelta = 0 then .onTrack
  else if durationDelta ≥ extremeDelay then .extreme
  else if durationDelta ≥ highDelay then .high
  else if durationDelta ≥ moderateDelay then .moderate
  else .onTrack

/-- `calculateTimelineDelayLevel` from `pkg/format/markdown.go`. -/
def calculateTimelineDelayLevel
    (startDaysDelta durationDelta moderateDelay highDelay extremeDelay : Int) :
    DelayLevel :=
  if startDaysDelta < 0 ∧ durationDelta ≤ 0 then .ahead
  else
    let maxDelay := if durationDelta > startDaysDelta then durationDelta else startDaysDelta
    if maxDelay = 0 then .onTrack
    else if maxDelay ≥ extremeDelay then .extreme
    else if maxDelay ≥ highDelay then .high
    else if maxDelay ≥ moderateDelay then .moderate
    else .onTrack

/-- `pluralize` from `pkg/format/markdown.go`. -/
def pluralize (n : Int) : String := if n = 1 then "" else "s"

/-- `formatHumanDuration` from `pkg/format/markdown.go`; Go's `/` and `%` on
`int` are `Int.tdiv` / `Int.tmod`. -/
def formatHumanDuration (days : Int) : String :=
  if days = 0 then "no change"
  else
    let years := Int.tdiv days 365
    let rem1 := Int.tmod days 365
    let months := Int.tdiv rem1 30
    let rem2 := Int.tmod rem1 30
    let weeks := Int.tdiv rem2 7
    let remainingDays := Int.tmod rem2 7
    if years > 0 then
      if months = 0 then toString years ++ " year" ++ pluralize years
      else toString years ++ " year" ++ pluralize years ++ " " ++
        toString months ++ " month" ++ pluralize months
    else if months > 0 then
      if weeks = 0 then toString months ++ " month" ++ pluralize months
      else toString months ++ " month" ++ pluralize months ++ " " ++
        toString weeks ++ " week" ++ pluralize weeks
    else if weeks > 0 then
      if remainingDays = 0 then toString weeks ++ " week" ++ pluralize weeks
      else toString weeks ++ " week" ++ pluralize weeks ++ " " ++
        toString remainingDays ++ " day" ++ pluralize remainingDays
    else toString days ++ " day" ++ pluralize days

/-! ### Formalisations of the specification's wording

The definitions below are written from the specification text (not from the
source); they exist to be compared against the embedded source functions. -/

/-- The threshold ladder as the specification words it: `0 → OnTrack,
>= extreme → Extreme, else >= high → High, else >= moderate → Moderate,
else OnTrack`. -/
def specDelayLadder (effectiveDelay moderateDelay highDelay extremeDelay : Int) :
    DelayLevel :=
  if effectiveDelay = 0 then .onTrack
  else if effectiveDelay ≥ extremeDelay then .extreme
  else if effectiveDelay ≥ highDelay then .high
  else if effectiveDelay ≥ moderateDelay then .moderate
  else .onTrack

/-- The hierarchical decomposition the specification describes for
`formatHumanDuration`: years (÷365), months (÷30 of the remainder), weeks
(÷7 of that remainder), then days — "all integer floor division" (`/` and
`%` on `Int` are floor division/remainder for these positive divisors). -/
def specUnits (days : Int) : List (Int × String) :=
  let years := days / 365
  let rem1 := days % 365
  let months := rem1 / 30
  let rem2 := rem1 % 30
  let weeks := rem2 / 7
  let d := rem2 % 7
  [(years, " year"), (months, " month"), (weeks, " week"), (d, " day")]

/-- One rendered unit with per-unit pluralization ("1 day" vs "5 days"). -/
def renderUnit (n : Int) (u : String) : String :=
  toString n ++ u ++ pluralize n

/-- The specification's rendering rule: show the largest nonzero unit and,
when it is nonzero, the unit immediately below it; everything smaller is
dropped (the reading fixed by the specification's own example
`95 → "3 months"`). -/
def renderTopTwo : List (Int × String) → String
  | [] => "no change"
  | (n, u) :: rest =>
    if n = 0 then renderTopTwo rest
    else
      match rest with
      | [] => renderUnit n u
      | (n2, u2) :: _ =>
        if n2 = 0 then renderUnit n u
        else renderUnit n u ++ " " ++ renderUnit n2 u2

/-- `formatHumanDuration` as claimed by the specification. -/
def claimHumanDuration (days : Int) : String :=
  if days = 0 then "no change" else renderTopTwo (specUnits days)

/-- The claim's notion of a differing attribute key: added, deleted, or
present on both sides with different values. -/
def attrDiffers (i other : Item) (k : String) : Bool :=
  match lookupAttr i.Attributes k, lookupAttr other.Attributes k with
  | none, none => false
  | none, some _ => true
  | some _, none => true
  | some a, some b => a != b

/-- Forget the wall-clock `Timestamp` of an `ItemDiff` (the claims about
determinism and engine equivalence are stated up to this field). -/
def eraseTimestamp (d : ItemDiff) : ItemDiff :=
  { d with Timestamp := 0 }

/-- Forget the wall-clock `Timestamp` of every `ItemDiff` in a diff. -/
def eraseDiffTimestamps (d : ProjectDiff) : ProjectDiff :=
  { d with ChangedItems := d.ChangedItems.map eraseTimestamp }

/-! ### Concrete fixtures used by witnesses and counterexamples -/

/-- Item "1" as captured in an older snapshot. -/
def exItemOld : Item :=
  { ID := "1", DateSpan := ⟨0, 24⟩, Attributes := [("status", .vStr "Todo")] }

/-- Item "1" as captured in a newer snapshot: same dates, changed status. -/
def exItemNew : Item :=
  { ID := "1", DateSpan := ⟨0, 24⟩, Attributes := [("status", .vStr "Done")] }

/-- Item "2", present only in the newer snapshot. -/
def exItemAdded : Item :=
  { ID := "2", DateSpan := ⟨0, 48⟩, Attributes := [("Team", .vStr "UI")] }

/-- Item "3", present only in the older snapshot. -/
def exItemGone : Item :=
  { ID := "3", DateSpan := ⟨0, 48⟩, Attributes := [("Team", .vStr "Backend")] }

/-- Older snapshot fixture. -/
def exFrom : ProjectState :=
  { Filename := "a.json", Timestamp := 0, ProjectNumber := 7, ProjectID := "P"
    Organization := "acme", Items := [exItemOld, exItemGone] }

/-- Newer snapshot fixture. -/
def exTo : ProjectState :=
  { Filename := "b.json", Timestamp := 1, ProjectNumber := 7, ProjectID := "P"
    Organization := "acme", Items := [exItemNew, exItemAdded] }

/-! ## Helper lemmas -/

theorem tdiv_eq_ediv_of_nonneg (a b : Int) (ha : 0 ≤ a) (hb : 0 ≤ b) :
    a.tdiv b = a / b := by
  obtain ⟨m, rfl⟩ := Int.eq_ofNat_of_zero_le ha
  obtain ⟨n, rfl⟩ := Int.eq_ofNat_of_zero_le hb
  rfl

theorem tmod_eq_emod_of_nonneg (a b : Int) (ha : 0 ≤ a) (hb : 0 ≤ b) :
    a.tmod b = a % b := by
  obtain ⟨m, rfl⟩ := Int.eq_ofNat_of_zero_le ha
  obtain ⟨n, rfl⟩ := Int.eq_ofNat_of_zero_le hb
  rfl

/-! ## C3: `calculateTimelineDelayLevel` against the claimed ladder -/

/-- C3.  `calculateTimelineDelayLevel` returns Ahead when `startDelta < 0`
and `durationDelta <= 0`; otherwise it classifies
`effectiveDelay = max(startDelta, durationDelta)` on the claimed threshold
ladder; and `calculateTimelineDelayLevel 10 20 7 14 30 = High`. -/
theorem calculateTimelineDelayLevel_spec
    (s d m h e : Int) :
    (s < 0 ∧ d ≤ 0 → calculateTimelineDelayLevel s d m h e = .ahead)
    ∧ (¬(s < 0 ∧ d ≤ 0) →
        calculateTimelineDelayLevel s d m h e = specDelayLadder (max s d) m h e)
    ∧ calculateTimelineDelayLevel 10 20 7 14 30 = .high := by
  refine ⟨fun hc => ?_, fun hc => ?_, by decide⟩
  · simp [calculateTimelineDelayLevel, hc]
  · have hmax : (if d > s then d else s) = max s d := by
      rcases le_or_lt d s with h1 | h1
      · rw [if_neg (by omega), max_eq_left h1]
      · rw [if_pos h1, max_eq_right (le_of_lt h1)]
    simp only [calculateTimelineDelayLevel, if_neg hc, hmax, specDelayLadder]

/-- Witness for C3: the non-Ahead branch at the claim's concrete numbers. -/
theorem calculateTimelineDelayLevel_spec_witness :
    ¬((10 : Int) < 0 ∧ (20 : Int) ≤ 0)
    ∧ calculateTimelineDelayLevel 10 20 7 14 30 = specDelayLadder (max 10 20) 7 14 30 :=
  ⟨by decide, (calculateTimelineDelayLevel_spec 10 20 7 14 30).2.1 (by decide)⟩

/-! ## C10: Ahead characterisation of `calculateTimelineDelayLevel` -/

/-- C10.  `calculateTimelineDelayLevel` returns Ahead iff `startDaysDelta < 0`
and `durationDelta <= 0`; when that condition fails the effective maximum is
nonnegative, and the ladder never produces Ahead. -/
theorem calculateTimelineDelayLevel_ahead_iff
    (s d m h e : Int) :
    (calculateTimelineDelayLevel s d m h e = .ahead ↔ (s < 0 ∧ d ≤ 0))
    ∧ (¬(s < 0 ∧ d ≤ 0) → 0 ≤ max s d) := by
  constructor
  · by_cases hc : s < 0 ∧ d ≤ 0
    · simp [calculateTimelineDelayLevel, hc]
    · simp only [calculateTimelineDelayLevel, if_neg hc]
      constructor
      · intro hres
        by_contra hne
        revert hres
        split_ifs <;> simp
      · intro hcon
        exact absurd hcon hc
  · intro hc
    rcases max_choice s d with hm | hm <;> omega

/-- Witness for C10: a failing Ahead condition with nonnegative maximum. -/
theorem calculateTimelineDelayLevel_ahead_iff_witness :
    ¬((10 : Int) < 0 ∧ (20 : Int) ≤ 0) ∧ 0 ≤ max (10 : Int) 20 :=
  ⟨by decide, (calculateTimelineDelayLevel_ahead_iff 10 20 7 14 30).2 (by decide)⟩

/-! ## C6: `DurationDays` on whole-day spans -/

/-- C6.  On a span whose endpoints are calendar dates (midnights, i.e. hour
values `24*a`, `24*b`) with `End >= Start`, `DurationDays` is the whole-day
difference plus one, is at least 1, and is exactly 1 for a same-day span. -/
theorem durationDays_spec (ds : DateSpan) (a b : Int)
    (hs : ds.Start = 24 * a) (he : ds.End = 24 * b) (hab : a ≤ b) :
    ds.DurationDays = (b - a) + 1
    ∧ 1 ≤ ds.DurationDays
    ∧ (a = b → ds.DurationDays = 1) := by
  have hmain : ds.DurationDays = (b - a) + 1 := by
    unfold DateSpan.DurationDays
    rw [hs, he]
    rw [show 24 * b - 24 * a = 24 * (b - a) by ring]
    rw [tdiv_eq_ediv_of_nonneg _ _ (by omega) (by omega)]
    omega
  exact ⟨hmain, by omega, fun hEq => by omega⟩

/-- Witness for C6: the span 1970-01-06 .. 1970-01-08 has duration 3. -/
theorem durationDays_spec_witness :
    (DateSpan.mk (24 * 5) (24 * 7)).DurationDays = (7 - 5) + 1
    ∧ 1 ≤ (DateSpan.mk (24 * 5) (24 * 7)).DurationDays :=
  ⟨(durationDays_spec ⟨24 * 5, 24 * 7⟩ 5 7 rfl rfl (by omega)).1,
   (durationDays_spec ⟨24 * 5, 24 * 7⟩ 5 7 rfl rfl (by omega)).2.1⟩

/-! ## C5: `formatHumanDuration` -/

/-- For positive day counts the source function agrees with the
specification's decomposition-and-render description (Go's truncating
division coincides with floor division on nonnegative operands). -/
theorem formatHumanDuration_pos (days : Int) (hpos : 0 < days) :
    formatHumanDuration days = claimHumanDuration days := by
  have hne : ¬ days = 0 := by omega
  have h365 : Int.tdiv days 365 = days / 365 :=
    tdiv_eq_ediv_of_nonneg _ _ (by omega) (by omega)
  have hm365 : Int.tmod days 365 = days % 365 :=
    tmod_eq_emod_of_nonneg _ _ (by omega) (by omega)
  have hr1 : 0 ≤ days % 365 := Int.emod_nonneg _ (by omega)
  have h30 : Int.tdiv (days % 365) 30 = days % 365 / 30 :=
    tdiv_eq_ediv_of_nonneg _ _ hr1 (by omega)
  have hm30 : Int.tmod (days % 365) 30 = days % 365 % 30 :=
    tmod_eq_emod_of_nonneg _ _ hr1 (by omega)
  have hr2 : 0 ≤ days % 365 % 30 := Int.emod_nonneg _ (by omega)
  have h7 : Int.tdiv (days % 365 % 30) 7 = days % 365 % 30 / 7 :=
    tdiv_eq_ediv_of_nonneg _ _ hr2 (by omega)
  have hm7 : Int.tmod (days % 365 % 30) 7 = days % 365 % 30 % 7 :=
    tmod_eq_emod_of_nonneg _ _ hr2 (by omega)
  have hy0 : 0 ≤ days / 365 := Int.ediv_nonneg (by omega) (by omega)
  have hmo0 : 0 ≤ days % 365 / 30 := Int.ediv_nonneg hr1 (by omega)
  have hw0 : 0 ≤ days % 365 % 30 / 7 := Int.ediv_nonneg hr2 (by omega)
  simp only [formatHumanDuration, claimHumanDuration, specUnits, renderTopTwo,
    renderUnit, if_neg hne, h365, hm365, h30, hm30, h7, hm7]
  by_cases hy : days / 365 = 0
  · by_cases hmo : days % 365 / 30 = 0
    · by_cases hw : days % 365 % 30 / 7 = 0
      · have hdd : days % 365 % 30 % 7 = days := by omega
        have hd0 : ¬ days % 365 % 30 % 7 = 0 := by omega
        rw [if_neg (by omega), if_neg (by omega), if_neg (by omega),
          if_pos hy, if_pos hmo, if_pos hw, if_neg hd0, hdd]
      · have hr3 : 0 ≤ days % 365 % 30 % 7 := Int.emod_nonneg _ (by omega)
        rw [if_neg (by omega), if_neg (by omega), if_pos (by omega),
          if_pos hy, if_pos hmo, if_neg hw]
        by_cases hd : days % 365 % 30 % 7 = 0
        · rw [if_pos hd, if_pos hd]
        · rw [if_neg hd, if_neg hd]
          simp only [String.append_assoc]
    · rw [if_neg (by omega), if_pos (by omega), if_pos hy, if_neg hmo]
      by_cases hw : days % 365 % 30 / 7 = 0
      · rw [if_pos hw, if_pos hw]
      · rw [if_neg hw, if_neg hw]
        simp only [String.append_assoc]
  · rw [if_pos (by omega), if_neg hy]
    by_cases hmo : days % 365 / 30 = 0
    · rw [if_pos hmo, if_pos hmo]
    · rw [if_neg hmo, if_neg hmo]
      simp only [String.append_assoc]

/-- C5 counterexample.  At `days = -400` the source renders `"-400 days"`,
while the claimed floor-division decomposition and top-two-unit rendering
yields `"-2 years 11 months"`: the claim fails for negative day counts
(Go's division truncates toward zero and the rendering cascade tests
`> 0`, so every negative input falls through to the raw day count). -/
theorem formatHumanDuration_neg_counterexample :
    formatHumanDuration (-400) = "-400 days"
    ∧ claimHumanDuration (-400) = "-2 years 11 months"
    ∧ formatHumanDuration (-400) ≠ claimHumanDuration (-400) := by
  refine ⟨by decide, by decide, by decide⟩

/-- C5 (amended to positive day counts).  `formatHumanDuration 0` is
`"no change"`; for every positive `days` the output is the hierarchical
floor-division decomposition rendered as the largest nonzero unit plus the
unit immediately below it when nonzero; and the claim's seven concrete
examples hold. -/
theorem formatHumanDuration_spec :
    formatHumanDuration 0 = "no change"
    ∧ (∀ days : Int, 0 < days → formatHumanDuration days = claimHumanDuration days)
    ∧ formatHumanDuration 1 = "1 day"
    ∧ formatHumanDuration 7 = "1 week"
    ∧ formatHumanDuration 9 = "1 week 2 days"
    ∧ formatHumanDuration 30 = "1 month"
    ∧ formatHumanDuration 95 = "3 months"
    ∧ formatHumanDuration 365 = "1 year" :=
  ⟨by decide, formatHumanDuration_pos, by decide, by decide, by decide,
   by decide, by decide, by decide⟩

/-- Witness for C5: the general positive-days statement applied at 9. -/
theorem formatHumanDuration_spec_witness :
    (0 : Int) < 9 ∧ formatHumanDuration 9 = claimHumanDuration 9 :=
  ⟨by decide, formatHumanDuration_spec.2.1 9 (by decide)⟩

/-! ## C8: `NewDateSpan` error discrimination and atomicity -/

/-- C8.  `NewDateSpan` fails with a parse error iff either string fails
calendar-date parsing, fails with an order error iff both parse but the end
instant is before the start instant, and otherwise succeeds with exactly the
two parsed dates (errors carry no span at all, so failure is atomic). -/
theorem newDateSpan_spec (s e : String) :
    (NewDateSpan s e = .error .parseErr ↔ parseDate s = none ∨ parseDate e = none)
    ∧ (NewDateSpan s e = .error .orderErr ↔
        ∃ sd ed, parseDate s = some sd ∧ parseDate e = some ed ∧
          ed.toTime < sd.toTime)
    ∧ (∀ sd ed, parseDate s = some sd → parseDate e = some ed →
        ¬ ed.toTime < sd.toTime →
        NewDateSpan s e = .ok ⟨sd.toTime, ed.toTime⟩) := by
  unfold NewDateSpan
  cases hs : parseDate s with
  | none => simp [hs]
  | some sd =>
    cases he : parseDate e with
    | none => simp [he]
    | some ed =>
      dsimp only
      by_cases hlt : ed.toTime < sd.toTime
      · rw [if_pos hlt]
        refine ⟨by simp, ?_, ?_⟩
        · simp only [true_iff]
          exact ⟨sd, ed, rfl, rfl, hlt⟩
        · intro sd1 ed1 h1 h2 h3
          cases h1
          cases h2
          exact absurd hlt h3
      · rw [if_neg hlt]
        refine ⟨by simp, ?_, ?_⟩
        · constructor
          · intro h
            cases h
          · rintro ⟨sd1, ed1, h1, h2, h3⟩
            cases h1
            cases h2
            exact absurd h3 hlt
        · intro sd1 ed1 h1 h2 _
          cases h1
          cases h2
          rfl

/-- Witness for C8: a successful construction from two real dates. -/
theorem newDateSpan_spec_witness :
    NewDateSpan "2024-01-01" "2024-01-03"
      = .ok ⟨CivilDate.toTime ⟨2024, 1, 1⟩, CivilDate.toTime ⟨2024, 1, 3⟩⟩ :=
  (newDateSpan_spec "2024-01-01" "2024-01-03").2.2
    ⟨2024, 1, 1⟩ ⟨2024, 1, 3⟩ (by decide) (by decide) (by decide)

/-! ## Order lemmas for the byte-wise string comparison -/

theorem char_toNat_inj {a b : Char} (h : a.toNat = b.toNat) : a = b := by
  apply Char.ext
  unfold Char.toNat at h
  exact UInt32.eq_of_val_eq (Fin.eq_of_val_eq h)

theorem string_data_inj {s t : String} (h : s.data = t.data) : s = t := by
  cases s
  cases t
  exact congrArg String.mk (by simpa using h)

theorem strLtList_irrefl (l : List Char) : strLtList l l = false := by
  induction l with
  | nil => rfl
  | cons c cs ih =>
    rw [strLtList, if_neg (by omega), if_neg (by omega)]
    exact ih

theorem strLtList_trans {a b c : List Char}
    (h1 : strLtList a b = true) (h2 : strLtList b c = true) :
    strLtList a c = true := by
  induction a generalizing b c with
  | nil =>
    cases b with
    | nil => exact absurd h1 (by simp [strLtList])
    | cons y ys =>
      cases c with
      | nil => exact absurd h2 (by simp [strLtList])
      | cons z zs => rfl
  | cons x xs ih =>
    cases b with
    | nil => exact absurd h1 (by simp [strLtList])
    | cons y ys =>
      cases c with
      | nil => exact absurd h2 (by simp [strLtList])
      | cons z zs =>
        rw [strLtList] at h1 h2 ⊢
        by_cases hxy : x.toNat < y.toNat
        · rw [if_pos hxy] at h1
          by_cases hyz : y.toNat < z.toNat
          · rw [if_pos (by omega)]
          · rw [if_neg hyz] at h2
            by_cases hzy : z.toNat < y.toNat
            · rw [if_pos hzy] at h2
              cases h2
            · rw [if_pos (by omega)]
        · rw [if_neg hxy] at h1
          by_cases hyx : y.toNat < x.toNat
          · rw [if_pos hyx] at h1
            cases h1
          · rw [if_neg hyx] at h1
            by_cases hyz : y.toNat < z.toNat
            · rw [if_pos (by omega)]
            · rw [if_neg hyz] at h2
              by_cases hzy : z.toNat < y.toNat
              · rw [if_pos hzy] at h2
                cases h2
              · rw [if_neg hzy] at h2
                rw [if_neg (by omega), if_neg (by omega)]
                exact ih h1 h2

theorem strLtList_total (a b : List Char) :
    strLtList a b = true ∨ strLtList b a = true ∨ a = b := by
  induction a generalizing b with
  | nil =>
    cases b with
    | nil => exact Or.inr (Or.inr rfl)
    | cons y ys => exact Or.inl rfl
  | cons x xs ih =>
    cases b with
    | nil => exact Or.inr (Or.inl rfl)
    | cons y ys =>
      by_cases hxy : x.toNat < y.toNat
      · exact Or.inl (by rw [strLtList, if_pos hxy])
      · by_cases hyx : y.toNat < x.toNat
        · exact Or.inr (Or.inl (by rw [strLtList, if_pos hyx]))
        · have hx : x = y := char_toNat_inj (by omega)
          subst hx
          rcases ih ys with h | h | h
          · exact Or.inl (by rw [strLtList, if_neg hxy, if_neg hxy]; exact h)
          · exact Or.inr (Or.inl (by rw [strLtList, if_neg hxy, if_neg hxy]; exact h))
          · exact Or.inr (Or.inr (by rw [h]))

theorem strLt_ne {a b : String} (h : strLt a b = true) : a ≠ b := by
  intro hEq
  subst hEq
  rw [strLt, strLtList_irrefl] at h
  cases h

instance : IsTotal FieldChange fieldLe :=
  ⟨fun a b => by
    rcases strLtList_total a.Field.data b.Field.data with h | h | h
    · exact Or.inl (Or.inl h)
    · exact Or.inr (Or.inl h)
    · exact Or.inl (Or.inr (string_data_inj h))⟩

instance : IsTrans FieldChange fieldLe :=
  ⟨fun a b c h1 h2 => by
    rcases h1 with h1 | h1 <;> rcases h2 with h2 | h2
    · exact Or.inl (strLtList_trans h1 h2)
    · rw [fieldLe, ← h2]
      exact Or.inl h1
    · rw [fieldLe, h1]
      exact Or.inl h2
    · exact Or.inr (h1.trans h2)⟩

/-! ## Association-list lookup lemmas -/

theorem lookupAttr_eq_none (m : List (String × AttrVal)) (k : String) :
    lookupAttr m k = none ↔ k ∉ m.map Prod.fst := by
  rw [lookupAttr, Option.map_eq_none', List.find?_eq_none]
  constructor
  · intro h hk
    rcases List.mem_map.mp hk with ⟨p, hp, hfst⟩
    exact h p hp (by simp [hfst])
  · intro h p hp hbeq
    exact h (List.mem_map.mpr ⟨p, hp, by simpa using hbeq⟩)

theorem lookupAttr_eq_some (m : List (String × AttrVal)) (k : String) (v : AttrVal)
    (hnd : (m.map Prod.fst).Nodup) :
    (lookupAttr m k = some v ↔ (k, v) ∈ m) := by
  induction m with
  | nil => simp [lookupAttr]
  | cons p rest ih =>
    obtain ⟨k1, v1⟩ := p
    rw [List.map_cons, List.nodup_cons] at hnd
    rw [lookupAttr]
    by_cases hk : k1 = k
    · subst hk
      rw [show List.find? (fun p => p.1 == k1) ((k1, v1) :: rest) = some (k1, v1) from
          List.find?_cons_of_pos _ (by exact beq_self_eq_true k1)]
      rw [Option.map_some', List.mem_cons]
      constructor
      · intro h
        have hv : v1 = v := by simpa using h
        exact Or.inl (by rw [hv])
      · rintro (h | h)
        · have hv : v = v1 := congrArg Prod.snd h
          simp [hv]
        · exact absurd (List.mem_map.mpr ⟨_, h, rfl⟩) hnd.1
    · rw [show List.find? (fun p => p.1 == k) ((k1, v1) :: rest)
            = List.find? (fun p => p.1 == k) rest from
          List.find?_cons_of_neg _ (by simpa using hk)]
      rw [← lookupAttr, ih hnd.2, List.mem_cons]
      constructor
      · exact Or.inr
      · rintro (h | h)
        · have : k = k1 := congrArg Prod.fst h
          exact absurd this.symm hk
        · exact h

/-- The `Field` projections of either attribute-difference pass form a
sublist of the corresponding key list. -/
theorem filterMap_field_sublist (f : (String × AttrVal) → Option FieldChange)
    (hf : ∀ p c, f p = some c → c.Field = p.1) (m : List (String × AttrVal)) :
    ((m.filterMap f).map FieldChange.Field).Sublist (m.map Prod.fst) := by
  induction m with
  | nil => simp
  | cons p rest ih =>
    cases hfp : f p with
    | none =>
      rw [List.filterMap_cons_none hfp, List.map_cons]
      exact ih.cons p.1
    | some c =>
      rw [List.filterMap_cons_some hfp, List.map_cons, List.map_cons,
        hf p c hfp]
      exact ih.cons₂ p.1

/-! ## C7: `FilterState` -/

theorem splitFirstEq_eq_none_iff (l : List Char) :
    splitFirstEq l = none ↔ '=' ∉ l := by
  induction l with
  | nil => simp [splitFirstEq]
  | cons c cs ih =>
    by_cases hc : c = '='
    · subst hc
      simp [splitFirstEq]
    · rw [splitFirstEq, if_neg hc]
      cases hsp : splitFirstEq cs with
      | none =>
        have hcs : '=' ∉ cs := ih.mp hsp
        simp only [hsp, List.mem_cons]
        constructor
        · rintro - h
          rcases h with h | h
          · exact hc h.symm
          · exact hcs h
        · intro _
          trivial
      | some p =>
        obtain ⟨a, b⟩ := p
        have hmem : '=' ∈ cs := by
          by_contra hn
          rw [ih.mpr hn] at hsp
          cases hsp
        simp only [hsp, List.mem_cons]
        constructor
        · intro h
          cases h
        · intro h
          exact absurd (Or.inr hmem) h

theorem splitFirstEq_of_decomp (a v : List Char) (ha : '=' ∉ a) :
    splitFirstEq (a ++ '=' :: v) = some (a, v) := by
  induction a with
  | nil => simp [splitFirstEq]
  | cons c cs ih =>
    have hc : c ≠ '=' := fun h => ha (h ▸ List.mem_cons_self c cs)
    have hcs : '=' ∉ cs := fun h => ha (List.mem_cons_of_mem c h)
    rw [List.cons_append, splitFirstEq, if_neg hc, ih hcs]

/-- C7.  `FilterState ""` returns the original state; a nonempty filter
fails iff it contains no `'='`; otherwise the filter splits at the first
`'='` into attribute and value and the result keeps exactly the items whose
attribute stringifies to the value, with every metadata field copied. -/
theorem filterState_spec (s : ProjectState) (f : String) :
    (s.FilterState "" = .ok s)
    ∧ (f ≠ "" → ((∃ msg, s.FilterState f = .error msg) ↔ '=' ∉ f.data))
    ∧ (∀ a v, f.data = a ++ '=' :: v → '=' ∉ a →
        ∃ s2, s.FilterState f = .ok s2
          ∧ s2.Filename = s.Filename ∧ s2.Timestamp = s.Timestamp
          ∧ s2.ProjectNumber = s.ProjectNumber ∧ s2.ProjectID = s.ProjectID
          ∧ s2.Organization = s.Organization
          ∧ ∀ it, it ∈ s2.Items ↔ (it ∈ s.Items ∧
              ∃ w, lookupAttr it.Attributes (String.mk a) = some w ∧
                w.goString = String.mk v)) := by
  refine ⟨by rw [ProjectState.FilterState, if_pos rfl], fun hf => ?_, ?_⟩
  · rw [ProjectState.FilterState, if_neg hf]
    cases hsp : splitFirstEq f.data with
    | none =>
      have hcs : '=' ∉ f.data := (splitFirstEq_eq_none_iff f.data).mp hsp
      simp only [hsp]
      constructor
      · intro _
        exact hcs
      · intro _
        exact ⟨_, rfl⟩
    | some p =>
      obtain ⟨a, v⟩ := p
      have hmem : '=' ∈ f.data := by
        by_contra hn
        rw [(splitFirstEq_eq_none_iff f.data).mpr hn] at hsp
        cases hsp
      simp only [hsp]
      constructor
      · rintro ⟨msg, hmsg⟩
        cases hmsg
      · intro h
        exact absurd hmem h
  · intro a v hdec ha
    have hf : f ≠ "" := by
      intro h
      rw [h] at hdec
      exact absurd hdec (by simp [String.data])
    rw [ProjectState.FilterState, if_neg hf, hdec, splitFirstEq_of_decomp a v ha]
    refine ⟨_, rfl, rfl, rfl, rfl, rfl, rfl, fun it => ?_⟩
    simp only [List.mem_filter]
    constructor
    · rintro ⟨hmem, hcond⟩
      refine ⟨hmem, ?_⟩
      revert hcond
      cases hl : lookupAttr it.Attributes (String.mk a) with
      | none => intro h; cases h
      | some w =>
        intro h
        exact ⟨w, rfl, by simpa using h⟩
    · rintro ⟨hmem, w, hw, hgs⟩
      exact ⟨hmem, by rw [hw]; simpa using hgs⟩

/-- Witness for C7: filtering the newer fixture snapshot by `Team=UI`. -/
theorem filterState_spec_witness :
    "Team=UI".data = "Team".data ++ '=' :: "UI".data
    ∧ ∃ s2, exTo.FilterState "Team=UI" = .ok s2
        ∧ s2.Filename = exTo.Filename ∧ s2.Timestamp = exTo.Timestamp
        ∧ s2.ProjectNumber = exTo.ProjectNumber ∧ s2.ProjectID = exTo.ProjectID
        ∧ s2.Organization = exTo.Organization
        ∧ ∀ it, it ∈ s2.Items ↔ (it ∈ exTo.Items ∧
            ∃ w, lookupAttr it.Attributes (String.mk "Team".data) = some w ∧
              w.goString = String.mk "UI".data) :=
  ⟨by decide,
   (filterState_spec exTo "Team=UI").2.2 "Team".data "UI".data (by decide) (by decide)⟩

/-! ## C2: `Item.CompareTo` -/

theorem mem_attrChangesNew (i j : Item) (k : String) :
    (∃ c ∈ attrChangesNew i j, c.Field = k) ↔
      ∃ v, (k, v) ∈ j.Attributes ∧ lookupAttr i.Attributes k ≠ some v := by
  rw [attrChangesNew]
  constructor
  · rintro ⟨c, hc, hck⟩
    rcases List.mem_filterMap.mp hc with ⟨p, hp, hfp⟩
    by_cases hne : lookupAttr i.Attributes p.1 ≠ some p.2
    · rw [if_pos hne] at hfp
      cases hfp
      have hk : p.1 = k := hck
      refine ⟨p.2, ?_, ?_⟩
      · rw [← hk]
        simpa using hp
      · rw [← hk]
        exact hne
    · rw [if_neg hne] at hfp
      cases hfp
  · rintro ⟨v, hv, hne⟩
    refine ⟨⟨k, lookupAttr i.Attributes k, some v⟩, ?_, rfl⟩
    exact List.mem_filterMap.mpr ⟨(k, v), hv, by rw [if_pos hne]⟩

theorem mem_attrChangesDeleted (i j : Item) (k : String) :
    (∃ c ∈ attrChangesDeleted i j, c.Field = k) ↔
      (∃ v, (k, v) ∈ i.Attributes) ∧ lookupAttr j.Attributes k = none := by
  rw [attrChangesDeleted]
  constructor
  · rintro ⟨c, hc, hck⟩
    rcases List.mem_filterMap.mp hc with ⟨p, hp, hfp⟩
    by_cases hno : lookupAttr j.Attributes p.1 = none
    · rw [if_pos hno] at hfp
      cases hfp
      have hk : p.1 = k := hck
      refine ⟨⟨p.2, ?_⟩, ?_⟩
      · rw [← hk]
        simpa using hp
      · rw [← hk]
        exact hno
    · rw [if_neg hno] at hfp
      cases hfp
  · rintro ⟨⟨v, hv⟩, hno⟩
    refine ⟨⟨k, some v, none⟩, ?_, rfl⟩
    exact List.mem_filterMap.mpr ⟨(k, v), hv, by rw [if_pos hno]⟩

theorem attrChangesNew_fields_sublist (i j : Item) :
    ((attrChangesNew i j).map FieldChange.Field).Sublist (j.Attributes.map Prod.fst) := by
  rw [attrChangesNew]
  apply filterMap_field_sublist
  intro p c hfp
  dsimp only at hfp
  by_cases hne : lookupAttr i.Attributes p.1 ≠ some p.2
  · rw [if_pos hne] at hfp
    cases hfp
    rfl
  · rw [if_neg hne] at hfp
    cases hfp

theorem attrChangesDeleted_fields_sublist (i j : Item) :
    ((attrChangesDeleted i j).map FieldChange.Field).Sublist (i.Attributes.map Prod.fst) := by
  rw [attrChangesDeleted]
  apply filterMap_field_sublist
  intro p c hfp
  by_cases hno : lookupAttr j.Attributes p.1 = none
  · rw [if_pos hno] at hfp
    cases hfp
    rfl
  · rw [if_neg hno] at hfp
    cases hfp

/-- Under unique attribute keys the two passes of `Item.CompareTo` touch
disjoint key sets, so the combined change list has pairwise-distinct field
names. -/
theorem fieldChanges_fields_nodup (i j : Item)
    (hi : (i.Attributes.map Prod.fst).Nodup) (hj : (j.Attributes.map Prod.fst).Nodup) :
    ((attrChangesNew i j ++ attrChangesDeleted i j).map FieldChange.Field).Nodup := by
  rw [List.map_append, List.nodup_append]
  refine ⟨List.Nodup.sublist (attrChangesNew_fields_sublist i j) hj,
    List.Nodup.sublist (attrChangesDeleted_fields_sublist i j) hi, ?_⟩
  intro k hk1 hk2
  rcases List.mem_map.mp hk1 with ⟨c1, hc1, hf1⟩
  rcases List.mem_map.mp hk2 with ⟨c2, hc2, hf2⟩
  rcases (mem_attrChangesNew i j k).mp ⟨c1, hc1, hf1⟩ with ⟨v, hv, -⟩
  have h2 := (mem_attrChangesDeleted i j k).mp ⟨c2, hc2, hf2⟩
  have := (lookupAttr_eq_some j.Attributes k v hj).mpr hv
  rw [h2.2] at this
  cases this

/-- C2.  `Item.CompareTo` attaches `DateChange` iff the two DateSpans are
not `Equal`; `HasChanges` holds iff a date change or some field change is
present; under unique attribute keys, `FieldChanges` carries exactly one
entry per added, deleted or differing key, strictly sorted ascending by
field name. -/
theorem item_compareTo_spec (now : Int) (i j : Item)
    (hi : (i.Attributes.map Prod.fst).Nodup) (hj : (j.Attributes.map Prod.fst).Nodup) :
    ((Item.CompareTo now i j).DateChange ≠ none ↔ i.DateSpan.Equal j.DateSpan = false)
    ∧ ((Item.CompareTo now i j).HasChanges = true ↔
        ((Item.CompareTo now i j).DateChange ≠ none ∨
          (Item.CompareTo now i j).FieldChanges ≠ []))
    ∧ (∀ k, (∃ c ∈ (Item.CompareTo now i j).FieldChanges, c.Field = k) ↔
        attrDiffers i j k = true)
    ∧ (Item.CompareTo now i j).FieldChanges.Pairwise
        (fun a b => strLt a.Field b.Field = true) := by
  have hperm := List.perm_insertionSort fieldLe
    (attrChangesNew i j ++ attrChangesDeleted i j)
  have hfc : (Item.CompareTo now i j).FieldChanges
      = List.insertionSort fieldLe (attrChangesNew i j ++ attrChangesDeleted i j) := rfl
  refine ⟨?_, ?_, ?_, ?_⟩
  · have hdc : (Item.CompareTo now i j).DateChange
        = if i.DateSpan.Equal j.DateSpan then none
          else some (i.DateSpan.CompareTo j.DateSpan) := rfl
    cases hE : i.DateSpan.Equal j.DateSpan with
    | true => rw [hdc, if_pos hE]; simp [hE]
    | false => rw [hdc, if_neg (by rw [hE]; exact Bool.false_ne_true)]; simp [hE]
  · rw [ItemDiff.HasChanges, Bool.or_eq_true, Option.isSome_iff_ne_none,
      Bool.not_eq_true', List.isEmpty_eq_false_iff_exists_mem]
    constructor
    · rintro (h | h)
      · exact Or.inl h
      · rcases h with ⟨c, hc⟩
        exact Or.inr (List.ne_nil_of_mem hc)
    · rintro (h | h)
      · exact Or.inl h
      · rcases List.exists_mem_of_ne_nil _ h with ⟨c, hc⟩
        exact Or.inr ⟨c, hc⟩
  · intro k
    rw [hfc]
    have hmem : (∃ c ∈ List.insertionSort fieldLe
        (attrChangesNew i j ++ attrChangesDeleted i j), c.Field = k) ↔
        ((∃ c ∈ attrChangesNew i j, c.Field = k)
          ∨ (∃ c ∈ attrChangesDeleted i j, c.Field = k)) := by
      constructor
      · rintro ⟨c, hc, hck⟩
        rcases List.mem_append.mp (hperm.mem_iff.mp hc) with h | h
        · exact Or.inl ⟨c, h, hck⟩
        · exact Or.inr ⟨c, h, hck⟩
      · rintro (⟨c, hc, hck⟩ | ⟨c, hc, hck⟩)
        · exact ⟨c, hperm.mem_iff.mpr (List.mem_append.mpr (Or.inl hc)), hck⟩
        · exact ⟨c, hperm.mem_iff.mpr (List.mem_append.mpr (Or.inr hc)), hck⟩
    rw [hmem, mem_attrChangesNew, mem_attrChangesDeleted, attrDiffers]
    have hjmem : ∀ v, ((k, v) ∈ j.Attributes ↔ lookupAttr j.Attributes k = some v) :=
      fun v => (lookupAttr_eq_some j.Attributes k v hj).symm
    have himem : ∀ v, ((k, v) ∈ i.Attributes ↔ lookupAttr i.Attributes k = some v) :=
      fun v => (lookupAttr_eq_some i.Attributes k v hi).symm
    simp only [hjmem, himem]
    cases hli : lookupAttr i.Attributes k <;> cases hlj : lookupAttr j.Attributes k <;>
      simp [bne_iff_ne]
  · rw [hfc]
    have hsorted : List.Sorted fieldLe (List.insertionSort fieldLe
        (attrChangesNew i j ++ attrChangesDeleted i j)) :=
      List.sorted_insertionSort fieldLe _
    have hnd : ((List.insertionSort fieldLe
        (attrChangesNew i j ++ attrChangesDeleted i j)).map FieldChange.Field).Nodup :=
      ((hperm.map FieldChange.Field).nodup_iff).mpr (fieldChanges_fields_nodup i j hi hj)
    have hneq := List.pairwise_map.mp hnd
    refine (List.Pairwise.and hsorted hneq).imp ?_
    rintro a b ⟨hle | hle, hne⟩
    · exact hle
    · exact absurd hle hne

/-- Witness for C2: the changed-status fixture items. -/
theorem item_compareTo_spec_witness :
    ((exItemOld.Attributes.map Prod.fst).Nodup ∧ (exItemNew.Attributes.map Prod.fst).Nodup)
    ∧ ((∃ c ∈ (Item.CompareTo 0 exItemOld exItemNew).FieldChanges, c.Field = "status")
        ↔ attrDiffers exItemOld exItemNew "status" = true) :=
  ⟨⟨by decide, by decide⟩,
   (item_compareTo_spec 0 exItemOld exItemNew (by decide) (by decide)).2.2.1 "status"⟩

/-! ## Go-map building and lookup lemmas (for the project-level engines) -/

theorem mapInsert_of_not_mem (m : List (String × Item)) (k : String) (v : Item)
    (h : k ∉ m.map Prod.fst) : mapInsert m k v = m ++ [(k, v)] := by
  induction m with
  | nil => rfl
  | cons p rest ih =>
    obtain ⟨k1, v1⟩ := p
    rw [List.map_cons, List.mem_cons] at h
    have hk : ¬ k1 = k := fun hEq => h (Or.inl hEq.symm)
    rw [mapInsert, if_neg hk, ih (fun hm => h (Or.inr hm)), List.cons_append]

theorem buildItemMap_aux (items : List Item) (acc : List (String × Item))
    (hacc : ∀ it ∈ items, it.ID ∉ acc.map Prod.fst)
    (hnd : (items.map Item.ID).Nodup) :
    items.foldl (fun m it => mapInsert m it.ID it) acc
      = acc ++ items.map (fun it => (it.ID, it)) := by
  induction items generalizing acc with
  | nil => simp
  | cons it rest ih =>
    rw [List.map_cons, List.nodup_cons] at hnd
    rw [List.foldl_cons,
      mapInsert_of_not_mem _ _ _ (hacc it (List.mem_cons_self it rest))]
    rw [ih (acc ++ [(it.ID, it)]) ?_ hnd.2]
    · rw [List.append_assoc, List.singleton_append, List.map_cons]
    · intro it2 h2
      rw [List.map_append, List.mem_append]
      rintro (hmem | hmem)
      · exact hacc it2 (List.mem_cons_of_mem it h2) hmem
      · have hID : it2.ID = it.ID := by simpa using hmem
        exact hnd.1 (List.mem_map.mpr ⟨it2, h2, hID⟩)

/-- With unique item IDs, building the Go map from an item list yields the
paired list itself (no overwrites happen). -/
theorem buildItemMap_eq (items : List Item) (hnd : (items.map Item.ID).Nodup) :
    buildItemMap items = items.map (fun it => (it.ID, it)) := by
  rw [buildItemMap, buildItemMap_aux items [] (by simp) hnd, List.nil_append]

theorem mapLookup_map_pair (items : List Item) (k : String) :
    mapLookup (items.map (fun it => (it.ID, it))) k
      = items.find? (fun it => it.ID == k) := by
  induction items with
  | nil => rfl
  | cons it rest ih =>
    rw [List.map_cons, mapLookup, List.find?_cons, List.find?_cons]
    cases hbeq : (it.ID == k) with
    | true => rfl
    | false =>
      rw [← mapLookup]
      exact ih

theorem find?_id_eq_none (items : List Item) (k : String) :
    items.find? (fun it => it.ID == k) = none ↔ k ∉ items.map Item.ID := by
  rw [List.find?_eq_none]
  constructor
  · intro h hk
    rcases List.mem_map.mp hk with ⟨it, hit, hID⟩
    exact h it hit (by simp [hID])
  · intro h it hit hbeq
    exact h (List.mem_map.mpr ⟨it, hit, by simpa using hbeq⟩)

theorem find?_id_eq_some (items : List Item) (k : String) (x : Item)
    (hnd : (items.map Item.ID).Nodup) :
    (items.find? (fun it => it.ID == k) = some x ↔ x ∈ items ∧ x.ID = k) := by
  induction items with
  | nil => simp
  | cons it rest ih =>
    rw [List.map_cons, List.nodup_cons] at hnd
    rw [List.find?_cons]
    cases hbeq : (it.ID == k) with
    | true =>
      have hID : it.ID = k := by simpa using hbeq
      constructor
      · intro h
        have hx : it = x := by simpa using h
        subst hx
        exact ⟨List.mem_cons_self it rest, hID⟩
      · rintro ⟨hmem, hxk⟩
        rcases List.mem_cons.mp hmem with hx | hx
        · rw [hx]
        · exact absurd (List.mem_map.mpr ⟨x, hx, hxk.trans hID.symm⟩) hnd.1
    | false =>
      rw [ih hnd.2, List.mem_cons]
      constructor
      · rintro ⟨hmem, hxk⟩
        exact ⟨Or.inr hmem, hxk⟩
      · rintro ⟨hx | hx, hxk⟩
        · subst hx
          have : (x.ID == k) = true := by simp [hxk]
          rw [this] at hbeq
          cases hbeq
        · exact ⟨hx, hxk⟩

theorem pair_filter_snd (items : List Item) (c : String × Item → Bool) :
    ((items.map (fun it => (it.ID, it))).filter c).map Prod.snd
      = items.filter (fun it => c (it.ID, it)) := by
  induction items with
  | nil => rfl
  | cons it rest ih =>
    rw [List.map_cons, List.filter_cons, List.filter_cons]
    cases hc : c (it.ID, it) with
    | true => simp [hc, ih]
    | false => simp [hc, ih]

theorem pair_filterMap (items : List Item) (g : String × Item → Option ItemDiff) :
    (items.map (fun it => (it.ID, it))).filterMap g
      = items.filterMap (fun it => g (it.ID, it)) := by
  rw [List.filterMap_map]
  rfl

/-- Normal form of the removed-items pass of `CompareProjectStates` under
unique IDs. -/
theorem compare_removed_eq (now : Int) (fromS toS : ProjectState)
    (hf : (fromS.Items.map Item.ID).Nodup) (ht : (toS.Items.map Item.ID).Nodup) :
    (CompareProjectStates now fromS toS).RemovedItems
      = fromS.Items.filter
          (fun it => (toS.Items.find? (fun n => n.ID == it.ID)).isNone) := by
  simp only [CompareProjectStates]
  rw [buildItemMap_eq fromS.Items hf, buildItemMap_eq toS.Items ht, pair_filter_snd]
  simp only [mapLookup_map_pair]

/-- Normal form of the added-items pass of `CompareProjectStates` under
unique IDs. -/
theorem compare_added_eq (now : Int) (fromS toS : ProjectState)
    (hf : (fromS.Items.map Item.ID).Nodup) (ht : (toS.Items.map Item.ID).Nodup) :
    (CompareProjectStates now fromS toS).AddedItems
      = toS.Items.filter
          (fun it => (fromS.Items.find? (fun n => n.ID == it.ID)).isNone) := by
  simp only [CompareProjectStates]
  rw [buildItemMap_eq fromS.Items hf, buildItemMap_eq toS.Items ht, pair_filter_snd]
  simp only [mapLookup_map_pair]

/-- Normal form of the changed-items pass of `CompareProjectStates` under
unique IDs. -/
theorem compare_changed_eq (now : Int) (fromS toS : ProjectState)
    (hf : (fromS.Items.map Item.ID).Nodup) (ht : (toS.Items.map Item.ID).Nodup) :
    (CompareProjectStates now fromS toS).ChangedItems
      = fromS.Items.filterMap (fun it =>
          changedEntry now it (toS.Items.find? (fun n => n.ID == it.ID))) := by
  simp only [CompareProjectStates]
  rw [buildItemMap_eq fromS.Items hf, buildItemMap_eq toS.Items ht, pair_filterMap]
  simp only [mapLookup_map_pair]

/-! ## C1: ID partition of `CompareProjectStates` -/

/-- C1.  Under unique item IDs, the three result sequences of
`CompareProjectStates` partition the IDs: an ID appears among the removed
items iff it is in `from` and not `to`, among the added items iff in `to`
and not `from`, and among the changed items iff it is in both and the item
comparison reports changes — so an ID in both with no detected change
appears nowhere. -/
theorem compareProjectStates_id_partition (now : Int) (fromS toS : ProjectState)
    (hf : (fromS.Items.map Item.ID).Nodup) (ht : (toS.Items.map Item.ID).Nodup)
    (id : String) :
    ((∃ x ∈ (CompareProjectStates now fromS toS).RemovedItems, x.ID = id) ↔
      (id ∈ fromS.Items.map Item.ID ∧ id ∉ toS.Items.map Item.ID))
    ∧ ((∃ x ∈ (CompareProjectStates now fromS toS).AddedItems, x.ID = id) ↔
      (id ∈ toS.Items.map Item.ID ∧ id ∉ fromS.Items.map Item.ID))
    ∧ ((∃ d ∈ (CompareProjectStates now fromS toS).ChangedItems, d.ItemID = id) ↔
      ∃ oi ni, oi ∈ fromS.Items ∧ oi.ID = id ∧ ni ∈ toS.Items ∧ ni.ID = id ∧
        (Item.CompareTo now oi ni).HasChanges = true) := by
  refine ⟨?_, ?_, ?_⟩
  · rw [compare_removed_eq now fromS toS hf ht]
    constructor
    · rintro ⟨x, hx, hxid⟩
      rcases List.mem_filter.mp hx with ⟨hxmem, hcond⟩
      rw [Option.isNone_iff_eq_none, find?_id_eq_none] at hcond
      exact ⟨List.mem_map.mpr ⟨x, hxmem, hxid⟩, by rwa [hxid] at hcond⟩
    · rintro ⟨hin, hout⟩
      rcases List.mem_map.mp hin with ⟨x, hxmem, hxid⟩
      refine ⟨x, List.mem_filter.mpr ⟨hxmem, ?_⟩, hxid⟩
      rw [Option.isNone_iff_eq_none, find?_id_eq_none, hxid]
      exact hout
  · rw [compare_added_eq now fromS toS hf ht]
    constructor
    · rintro ⟨x, hx, hxid⟩
      rcases List.mem_filter.mp hx with ⟨hxmem, hcond⟩
      rw [Option.isNone_iff_eq_none, find?_id_eq_none] at hcond
      exact ⟨List.mem_map.mpr ⟨x, hxmem, hxid⟩, by rwa [hxid] at hcond⟩
    · rintro ⟨hin, hout⟩
      rcases List.mem_map.mp hin with ⟨x, hxmem, hxid⟩
      refine ⟨x, List.mem_filter.mpr ⟨hxmem, ?_⟩, hxid⟩
      rw [Option.isNone_iff_eq_none, find?_id_eq_none, hxid]
      exact hout
  · rw [compare_changed_eq now fromS toS hf ht]
    constructor
    · rintro ⟨d, hd, hdid⟩
      rcases List.mem_filterMap.mp hd with ⟨oi, hoi, hg⟩
      cases hfind : toS.Items.find? (fun n => n.ID == oi.ID) with
      | none =>
        rw [hfind, changedEntry] at hg
        cases hg
      | some ni =>
        rw [hfind, changedEntry] at hg
        by_cases hch : (Item.CompareTo now oi ni).HasChanges = true
        · rw [if_pos hch] at hg
          cases hg
          have hoiid : oi.ID = id := hdid
          rcases (find?_id_eq_some toS.Items oi.ID ni ht).mp hfind with ⟨hni, hniid⟩
          exact ⟨oi, ni, hoi, hoiid, hni, by rw [hniid, hoiid], hch⟩
        · rw [if_neg hch] at hg
          cases hg
    · rintro ⟨oi, ni, hoi, hoiid, hni, hniid, hch⟩
      have hfind : toS.Items.find? (fun n => n.ID == oi.ID) = some ni :=
        (find?_id_eq_some toS.Items oi.ID ni ht).mpr ⟨hni, by rw [hniid, hoiid]⟩
      refine ⟨Item.CompareTo now oi ni, List.mem_filterMap.mpr ⟨oi, hoi, ?_⟩, ?_⟩
      · rw [hfind, changedEntry, if_pos hch]
      · exact hoiid

theorem beq_str_comm (a b : String) : (a == b) = (b == a) := by
  by_cases h : a = b
  · rw [h]
  · rw [beq_eq_false_iff_ne.mpr h, beq_eq_false_iff_ne.mpr (Ne.symm h)]

/-- The two engines spell the ID test in opposite argument orders; `==` on
strings is symmetric. -/
theorem find?_flip (items : List Item) (x : Item) :
    items.find? (fun n => x.ID == n.ID) = items.find? (fun n => n.ID == x.ID) :=
  congrArg (fun p => List.find? p items) (funext fun n => beq_str_comm x.ID n.ID)

/-- The comparison timestamp is the only part of an `ItemDiff` that depends
on the clock. -/
theorem eraseTimestamp_compareTo (n1 n2 : Int) (i o : Item) :
    eraseTimestamp (Item.CompareTo n1 i o) = eraseTimestamp (Item.CompareTo n2 i o) := rfl

theorem hasChanges_compareTo (n1 n2 : Int) (i o : Item) :
    (Item.CompareTo n1 i o).HasChanges = (Item.CompareTo n2 i o).HasChanges := rfl

/-- The changed-items loop body is clock-independent once the timestamp is
erased. -/
theorem changedEntry_map_erase (n1 n2 : Int) (x : Item) (f : Option Item) :
    (changedEntry n1 x f).map eraseTimestamp
      = (changedEntry n2 x f).map eraseTimestamp := by
  cases f with
  | none => rfl
  | some ni =>
    rw [changedEntry, changedEntry]
    rw [hasChanges_compareTo n1 n2 x ni]
    by_cases hch : (Item.CompareTo n2 x ni).HasChanges = true
    · rw [if_pos hch, if_pos hch, Option.map_some', Option.map_some',
        eraseTimestamp_compareTo n1 n2 x ni]
    · rw [if_neg hch, if_neg hch]

/-- Witness for C1: in the fixtures, item "3" was removed, item "2" added. -/
theorem compareProjectStates_id_partition_witness :
    ((exFrom.Items.map Item.ID).Nodup ∧ (exTo.Items.map Item.ID).Nodup)
    ∧ ((∃ x ∈ (CompareProjectStates 0 exFrom exTo).RemovedItems, x.ID = "3") ↔
      ("3" ∈ exFrom.Items.map Item.ID ∧ "3" ∉ exTo.Items.map Item.ID)) :=
  ⟨⟨by decide, by decide⟩,
   (compareProjectStates_id_partition 0 exFrom exTo (by decide) (by decide) "3").1⟩

/-! ## C9: the map-based and nested-loop diff engines agree -/

/-- C9.  Under unique item IDs, `CompareProjectStates` and the nested-loop
`ProjectState.CompareTo` produce the same `AddedItems`, `RemovedItems` and
`ChangedItems` as multisets, up to the ordering of the three sequences and
up to the per-`ItemDiff` wall-clock `Timestamp` (the two engines are run at
unrelated times `n1`, `n2`). -/
theorem compare_engines_agree (n1 n2 : Int) (p other : ProjectState)
    (hp : (p.Items.map Item.ID).Nodup) (ho : (other.Items.map Item.ID).Nodup) :
    (CompareProjectStates n1 p other).AddedItems.Perm
      (ProjectState.CompareTo n2 p other).AddedItems
    ∧ (CompareProjectStates n1 p other).RemovedItems.Perm
      (ProjectState.CompareTo n2 p other).RemovedItems
    ∧ ((CompareProjectStates n1 p other).ChangedItems.map eraseTimestamp).Perm
      ((ProjectState.CompareTo n2 p other).ChangedItems.map eraseTimestamp) := by
  refine ⟨?_, ?_, ?_⟩
  · rw [compare_added_eq n1 p other hp ho]
    have h2 : (ProjectState.CompareTo n2 p other).AddedItems
        = other.Items.filter
            (fun n => (p.Items.find? (fun o => n.ID == o.ID)).isNone) := rfl
    rw [h2, List.filter_congr
      (fun x _ => (congrArg Option.isNone (find?_flip p.Items x)).symm)]
  · rw [compare_removed_eq n1 p other hp ho]
    have h2 : (ProjectState.CompareTo n2 p other).RemovedItems
        = p.Items.filter
            (fun o => (other.Items.find? (fun n => o.ID == n.ID)).isNone) := rfl
    rw [h2, List.filter_congr
      (fun x _ => (congrArg Option.isNone (find?_flip other.Items x)).symm)]
  · rw [compare_changed_eq n1 p other hp ho]
    have h2 : (ProjectState.CompareTo n2 p other).ChangedItems
        = p.Items.filterMap (fun o =>
            changedEntry n2 o (other.Items.find? (fun n => o.ID == n.ID))) := rfl
    have hpt : List.filterMap (fun x => Option.map eraseTimestamp
          (changedEntry n1 x (other.Items.find? (fun n => n.ID == x.ID)))) p.Items
        = List.filterMap (fun o => Option.map eraseTimestamp
          (changedEntry n2 o (other.Items.find? (fun n => o.ID == n.ID)))) p.Items :=
      List.filterMap_congr (fun x _ => by
        rw [find?_flip other.Items x]
        exact changedEntry_map_erase n1 n2 x _)
    rw [h2, List.map_filterMap, List.map_filterMap, hpt]

/-- Witness for C9: the two engines on the fixture snapshots. -/
theorem compare_engines_agree_witness :
    ((exFrom.Items.map Item.ID).Nodup ∧ (exTo.Items.map Item.ID).Nodup)
    ∧ (CompareProjectStates 1 exFrom exTo).AddedItems.Perm
        (ProjectState.CompareTo 2 exFrom exTo).AddedItems :=
  ⟨⟨by decide, by decide⟩,
   (compare_engines_agree 1 2 exFrom exTo (by decide) (by decide)).1⟩

/-! ## C4: determinism of `CompareProjectStates` across calls -/

/-- C4 counterexample.  Two calls at different clock readings produce
`ChangedItems` that are not equal even as multisets: every field of each
`ItemDiff` includes the `time.Now()` timestamp, which differs between the
calls. -/
theorem compareProjectStates_timestamp_counterexample :
    (CompareProjectStates 1 exFrom exTo).ChangedItems
      ≠ (CompareProjectStates 2 exFrom exTo).ChangedItems
    ∧ ¬ (CompareProjectStates 1 exFrom exTo).ChangedItems.Perm
        (CompareProjectStates 2 exFrom exTo).ChangedItems := by
  refine ⟨by decide, by decide⟩

/-- C4 (amended).  For fixed inputs, two calls of `CompareProjectStates`
agree on every field of the result except the per-`ItemDiff` wall-clock
`Timestamp`: after erasing timestamps the results are equal outright (in
particular `AddedItems` and `RemovedItems` are always identical, in the
same order). -/
theorem compareProjectStates_deterministic (n1 n2 : Int) (s t : ProjectState) :
    eraseDiffTimestamps (CompareProjectStates n1 s t)
      = eraseDiffTimestamps (CompareProjectStates n2 s t) := by
  rw [eraseDiffTimestamps, eraseDiffTimestamps]
  have hadd : (CompareProjectStates n1 s t).AddedItems
      = (CompareProjectStates n2 s t).AddedItems := rfl
  have hrem : (CompareProjectStates n1 s t).RemovedItems
      = (CompareProjectStates n2 s t).RemovedItems := rfl
  have hchg : ((CompareProjectStates n1 s t).ChangedItems.map eraseTimestamp)
      = ((CompareProjectStates n2 s t).ChangedItems.map eraseTimestamp) := by
    have h1 : (CompareProjectStates n1 s t).ChangedItems
        = (buildItemMap s.Items).filterMap
            (fun p => changedEntry n1 p.2 (mapLookup (buildItemMap t.Items) p.1)) := rfl
    have h2 : (CompareProjectStates n2 s t).ChangedItems
        = (buildItemMap s.Items).filterMap
            (fun p => changedEntry n2 p.2 (mapLookup (buildItemMap t.Items) p.1)) := rfl
    rw [h1, h2, List.map_filterMap, List.map_filterMap]
    exact List.filterMap_congr (fun x _ => changedEntry_map_erase n1 n2 x.2 _)
  rw [hadd, hrem, hchg]
